import Mathlib

/-!
Verification of the PhotoFilter local analysis engine.

The definitions below are a shallow embedding of the code in
`src/services/geminiService.ts` (quality scoring, classification, dHash,
Hamming distance, duplicate clustering), of the video branch of
`startProcessing` in `src/App.tsx`, and of the record types in `types.ts`.
JavaScript numbers are modelled as exact rationals; fallible browser
operations (image decode, canvas pixel-buffer reads) are modelled as
`Option`-valued inputs, `none` standing for the operation throwing.
-/

set_option allowUnsafeReducibility true in
attribute [semireducible] Rat.sub

deriving instance DecidableEq for Except

namespace PhotoFilter

/-- Category enum from `types.ts` (`ClassificationCategory`). -/
inductive ClassificationCategory where
  | KEEP
  | DISCARD
  | UNSURE
  | PENDING
deriving DecidableEq, Repr

/-- Record of `types.ts` `AnalysisResult`; `confidence` is an integer in 0..100. -/
structure AnalysisResult where
  category : ClassificationCategory
  confidence : ℕ
  reason : String
  tags : List String
deriving DecidableEq, Repr

/-- Record of `types.ts` `QualityScore`. -/
structure QualityScore where
  sharpness : ℚ
  exposure : ℚ
  resolution : ℚ
  total : ℚ
  details : List String
deriving DecidableEq, Repr

/-- Result of `loadImage` plus the analysis-size canvas draw in
`geminiService.ts`: the original pixel dimensions of the image and the flat
RGBA byte array that `getImageData` returns at the 320-wide analysis size
(`data = none` models `getImageData` throwing, e.g. on a tainted canvas). -/
structure DecodedImage where
  width : ℕ
  height : ℕ
  data : Option (List ℚ)
deriving DecidableEq, Repr

/-- Input of `analyzeImage` / `calculateImageQuality`: the `File`'s name and
byte size, plus the outcome of decoding it (`decoded = none` models
`loadImage` rejecting or `canvas.getContext` returning null). -/
structure ImageFile where
  name : List Char
  size : ℚ
  decoded : Option DecodedImage
deriving DecidableEq, Repr

/-- Substring test, modelling JavaScript `String.prototype.includes`. -/
def includesSub (hay sub : List Char) : Bool :=
  (List.range (hay.length + 1)).any fun i => (hay.drop i).take sub.length == sub

/-- Samples taken by the loop of `calculateSharpness`: indices stepping by 16
over the flat RGBA array (4 bytes per pixel, so every 4th pixel), with the
guard `i + 4 < data.length`; each sample is the absolute grey difference
between the pixel at `i` and the next pixel. -/
def sharpnessPairs (data : List ℚ) : List ℚ :=
  (List.range data.length).filterMap fun i =>
    if i % 16 = 0 ∧ i + 4 < data.length then
      some |(data.getD i 0 + data.getD (i+1) 0 + data.getD (i+2) 0) / 3
        - (data.getD (i+4) 0 + data.getD (i+5) 0 + data.getD (i+6) 0) / 3|
    else none

/-- Embedding of `calculateSharpness` (`geminiService.ts` lines 24-43): mean
absolute grey difference of the sampled pixel pairs; the `try`/`catch`
returning 0 on a failed buffer read is the `none` case. -/
def calculateSharpness (d : Option (List ℚ)) : ℚ :=
  match d with
  | none => 0
  | some data =>
    let pairs := sharpnessPairs data
    if pairs.length > 0 then pairs.sum / pairs.length else 0

/-- JS `Math.min` on two rationals (executable form of `min`). -/
def mathMin (a b : ℚ) : ℚ := if a ≤ b then a else b

/-- JS `Math.max` on two rationals (executable form of `max`). -/
def mathMax (a b : ℚ) : ℚ := if a ≤ b then b else a

/-- Embedding of `calculateExposureScore` (`geminiService.ts` lines 46-64):
BT.601 luma averaged over `width * height`, scored by distance from 128; the
`catch` branch returns 0.5 and is the `none` case. -/
def calculateExposureScore (d : Option (List ℚ)) (width height : ℕ) : ℚ :=
  match d with
  | none => 1/2
  | some data =>
    let lumas := ((List.range data.length).filter fun i => i % 4 == 0).map fun i =>
      data.getD i 0 * (299/1000) + data.getD (i+1) 0 * (587/1000)
        + data.getD (i+2) 0 * (114/1000)
    let avgLuma := lumas.sum / ((width * height : ℕ) : ℚ)
    let dist := |128 - avgLuma|
    mathMax 0 (1 - dist / 128)

/-- Rendering of JS `toFixed(1)` for the nonnegative megapixel value (round
half up to one decimal digit; `n` is the floor of `q * 10 + 1/2`, computed
as `num / den` which agrees with the floor on the nonnegative values this
is applied to); only its presence in the tag list matters. -/
def toFixed1 (q : ℚ) : String :=
  let r := q * 10 + 1/2
  let n : ℤ := r.num / (r.den : ℤ)
  toString (n / 10) ++ "." ++ toString (n % 10)

/-- Embedding of `calculateImageQuality` (`geminiService.ts` lines 109-157).
The outer `try`/`catch` returning the all-zero score is the
`decoded = none` case. -/
def calculateImageQuality (f : ImageFile) : QualityScore :=
  match f.decoded with
  | none => ⟨0, 0, 0, 0, []⟩
  | some img =>
    let w : ℕ := 320
    let h : ℕ := ⌊(img.height : ℚ) * ((w : ℚ) / (img.width : ℚ))⌋₊
    let sharpness := calculateSharpness img.data
    let exposure := calculateExposureScore img.data w h
    let resolution : ℚ := ((img.width * img.height : ℕ) : ℚ) / 1000000
    let normSharpness := mathMin (mathMax ((sharpness - 2) / 6) 0) 1
    let normRes := mathMin (mathMax ((resolution - 2) / 10) 0) 1
    let total := normSharpness * (6/10) + exposure * (2/10) + normRes * (2/10)
    let details :=
      (if normSharpness > 7/10 then ["Very Sharp"]
        else if normSharpness < 3/10 then ["Blurry"] else [])
      ++ (if exposure > 8/10 then ["Good Exposure"]
        else if exposure < 4/10 then ["Poor Exposure"] else [])
      ++ [toFixed1 resolution ++ "MP"]
    ⟨normSharpness, exposure, normRes, total, details⟩

/-- Filename test of `analyzeImage`: the lowercased name contains
"screenshot" or "screen_recording". -/
def screenshotName (name : List Char) : Bool :=
  let lower := name.map Char.toLower
  includesSub lower "screenshot".toList || includesSub lower "screen_recording".toList

/-- Embedding of `analyzeImage` (`geminiService.ts` lines 159-220). The
`catch` producing the Unsure/"Analysis failed" result is the
`decoded = none` case of the visual-analysis phase; the metadata checks
before it cannot throw. -/
def analyzeImage (f : ImageFile) : AnalysisResult :=
  if screenshotName f.name then
    ⟨.DISCARD, 98, "Filename indicates a screenshot", ["Screenshot"]⟩
  else if f.size / 1024 < 150 then
    ⟨.DISCARD, 85, "Low resolution (small file size)", ["Small"]⟩
  else
    match f.decoded with
    | none => ⟨.UNSURE, 0, "Analysis failed", ["Error"]⟩
    | some img =>
      let aspect : ℚ := (img.width : ℚ) / (img.height : ℚ)
      let sharpness := calculateSharpness img.data
      if aspect < 48/100 ∨ aspect > 22/10 then
        ⟨.DISCARD, 80, "Unusual aspect ratio", ["Aspect"]⟩
      else if sharpness < 5/2 then
        ⟨.DISCARD, 75, "Image appears blurry", ["Blurry"]⟩
      else
        ⟨.KEEP, 65, "Standard image resolution", ["Image"]⟩

/-- Embedding of the video branch of `startProcessing` (`App.tsx` lines
102-114): videos are classified from the filename alone, no decode. -/
def classifyVideoItem (name : List Char) : AnalysisResult :=
  if includesSub (name.map Char.toLower) "screen".toList then
    ⟨.DISCARD, 85, "Screen Recording Detected", ["Video"]⟩
  else
    ⟨.KEEP, 85, "Video content", ["Video"]⟩

/-- Embedding of `calculateHammingDistance` (`geminiService.ts` lines
99-105): count of positions `i < hash1.length` where the characters differ
(out-of-range reads of `hash2` give `undefined`, modelled by `none`). -/
def calculateHammingDistance (hash1 hash2 : List Char) : ℕ :=
  ((List.range hash1.length).filter fun i =>
    decide (hash1.get? i ≠ hash2.get? i)).length

/-- Embedding of `computeDHash` (`geminiService.ts` lines 70-97), as a
function of the flat RGBA array read back from the 9x8 canvas: one bit per
adjacent-pixel grey comparison, row-major. -/
def computeDHash (data : List ℚ) : List Char :=
  (List.range 8).flatMap fun y =>
    (List.range 8).map fun x =>
      let iLeft := (y * 9 + x) * 4
      let iRight := (y * 9 + x + 1) * 4
      let leftVal := (data.getD iLeft 0 + data.getD (iLeft+1) 0 + data.getD (iLeft+2) 0) / 3
      let rightVal := (data.getD iRight 0 + data.getD (iRight+1) 0 + data.getD (iRight+2) 0) / 3
      if leftVal > rightVal then '1' else '0'

/-- Media kind of `types.ts` `MediaItem.type`. -/
inductive MediaType where
  | image
  | video
deriving DecidableEq, Repr

/-- Record of `types.ts` `MediaItem`, restricted to the fields the duplicate
scan reads. `hashBuf` is the flat RGBA array that `detectDuplicates` reads
back from the 9x8 canvas after `loadImage` + `drawImage` (`none` models
`loadImage` rejecting for that file, which the source does not catch);
`hash` and `quality` are the cached values of the same-named optional
fields. -/
structure MediaItem where
  id : String
  type : MediaType
  timestamp : ℤ
  file : ImageFile
  hashBuf : Option (List ℚ)
  hash : Option (List Char)
  quality : Option QualityScore
deriving DecidableEq, Repr

/-- Record of `types.ts` `DuplicateGroup`. -/
structure DuplicateGroup where
  id : String
  items : List MediaItem
  bestItemId : String
  scoreGap : ℚ
deriving DecidableEq, Repr

/-- Value of the JS expression `(m.quality?.total || 0)` used when ranking a
group. -/
def qualityTotalOrZero (m : MediaItem) : ℚ :=
  (m.quality.map QualityScore.total).getD 0

/-- Precompute pass of `detectDuplicates` (`geminiService.ts` lines
234-254): walk the timestamp-sorted list, skip videos, and for any image
missing its cached hash or quality decode it and compute both; a decode
failure there is uncaught, so it aborts the whole scan (`Except.error`). -/
def processItems : List MediaItem → Except Unit (List MediaItem)
  | [] => .ok []
  | item :: rest =>
    match item.type with
    | .video => processItems rest
    | .image =>
      if item.hash.isNone || item.quality.isNone then
        match item.hashBuf with
        | none => .error ()
        | some buf =>
          let item' := { item with
            hash := some (computeDHash buf)
            quality := some (calculateImageQuality item.file) }
          (processItems rest).map (item' :: ·)
      else
        (processItems rest).map (item :: ·)

/-- JS `Math.min` on two naturals (executable form of `min`). -/
def natMin (a b : ℕ) : ℕ := if a ≤ b then a else b

/-- Index window scanned for the seed at index `i` (`geminiService.ts` lines
271-273): `lookAhead = min(length, i + 50)` and `j` runs from `i + 1` while
`j < lookAhead`. -/
def windowIdxs (len i : ℕ) : List ℕ :=
  List.range' (i + 1) (natMin len (i + 50) - (i + 1))

/-- Inner window scan of `detectDuplicates` (`geminiService.ts` lines
273-289): for each index `j` in the window, an unvisited candidate whose
hash (both hashes present) is within Hamming distance 5 of the seed's is
appended to the group and its id marked visited. Returns the grown group
and the grown visited list. -/
def scanWindow (ps : List MediaItem) (cur : MediaItem) :
    List ℕ → List MediaItem → List String → List MediaItem × List String
  | [], grp, visited => (grp, visited)
  | j :: rest, grp, visited =>
    match ps.get? j with
    | none => scanWindow ps cur rest grp visited
    | some candidate =>
      if visited.contains candidate.id then
        scanWindow ps cur rest grp visited
      else
        match cur.hash, candidate.hash with
        | some h1, some h2 =>
          if calculateHammingDistance h1 h2 ≤ 5 then
            scanWindow ps cur rest (grp ++ [candidate]) (candidate.id :: visited)
          else
            scanWindow ps cur rest grp visited
        | _, _ => scanWindow ps cur rest grp visited

/-- Descending-by-quality order used to rank a group's members, from the JS
comparator `(b.quality?.total || 0) - (a.quality?.total || 0)`. -/
def byQualityDesc (a b : MediaItem) : Prop :=
  qualityTotalOrZero b ≤ qualityTotalOrZero a

instance : DecidableRel byQualityDesc := fun a b =>
  inferInstanceAs (Decidable (qualityTotalOrZero b ≤ qualityTotalOrZero a))

/-- Outer loop of `detectDuplicates` (`geminiService.ts` lines 259-307):
each unvisited index seeds a group, the window is scanned, and a group of
size ≥ 2 is sorted by quality total descending (stable) and emitted with
its best member's id and the gap between the top two totals. -/
def groupLoop (ps : List MediaItem) :
    List ℕ → List String → List DuplicateGroup → List DuplicateGroup
  | [], _, groups => groups
  | i :: rest, visited, groups =>
    match ps.get? i with
    | none => groupLoop ps rest visited groups
    | some current =>
      if visited.contains current.id then
        groupLoop ps rest visited groups
      else
        let res := scanWindow ps current (windowIdxs ps.length i)
          [current] (current.id :: visited)
        if res.1.length > 1 then
          let sortedGrp := List.insertionSort byQualityDesc res.1
          let best := sortedGrp.getD 0 current
          let runnerUp := sortedGrp.getD 1 current
          let gap := qualityTotalOrZero best - qualityTotalOrZero runnerUp
          groupLoop ps rest res.2
            (groups ++ [⟨"group-" ++ current.id, sortedGrp, best.id, gap⟩])
        else
          groupLoop ps rest res.2 groups

/-- Ascending-by-timestamp order of the initial sort, from the JS comparator
`a.timestamp - b.timestamp` (ES array sort is stable, as is
`insertionSort`). -/
def byTimestamp (a b : MediaItem) : Prop :=
  a.timestamp ≤ b.timestamp

instance : DecidableRel byTimestamp := fun a b =>
  inferInstanceAs (Decidable (a.timestamp ≤ b.timestamp))

/-- Embedding of `detectDuplicates` (`geminiService.ts` lines 224-310). -/
def detectDuplicates (items : List MediaItem) : Except Unit (List DuplicateGroup) :=
  let sortedItems := List.insertionSort byTimestamp items
  (processItems sortedItems).map fun ps =>
    groupLoop ps (List.range ps.length) [] []

/-- Modelled from the spec: the window the spec's words describe, "scan
forward over a bounded window of the next W candidates (W=50)", i.e. the
indices `i+1 .. i+50` truncated at the end of the list. Declared only to be
compared against the code's `windowIdxs`. -/
def windowIdxsSpec50 (len i : ℕ) : List ℕ :=
  List.range' (i + 1) (natMin len (i + 51) - (i + 1))

/-- Modelled from the spec: `groupLoop` with the spec's next-50 window in
place of the code's window; identical otherwise. -/
def groupLoopSpec50 (ps : List MediaItem) :
    List ℕ → List String → List DuplicateGroup → List DuplicateGroup
  | [], _, groups => groups
  | i :: rest, visited, groups =>
    match ps.get? i with
    | none => groupLoopSpec50 ps rest visited groups
    | some current =>
      if visited.contains current.id then
        groupLoopSpec50 ps rest visited groups
      else
        let res := scanWindow ps current (windowIdxsSpec50 ps.length i)
          [current] (current.id :: visited)
        if res.1.length > 1 then
          let sortedGrp := List.insertionSort byQualityDesc res.1
          let best := sortedGrp.getD 0 current
          let runnerUp := sortedGrp.getD 1 current
          let gap := qualityTotalOrZero best - qualityTotalOrZero runnerUp
          groupLoopSpec50 ps rest res.2
            (groups ++ [⟨"group-" ++ current.id, sortedGrp, best.id, gap⟩])
        else
          groupLoopSpec50 ps rest res.2 groups

/-- Modelled from the spec: `detectDuplicates` with the next-50 window. -/
def detectDuplicatesSpec50 (items : List MediaItem) : Except Unit (List DuplicateGroup) :=
  let sortedItems := List.insertionSort byTimestamp items
  (processItems sortedItems).map fun ps =>
    groupLoopSpec50 ps (List.range ps.length) [] []

/-- Boolean form of the inner matching test of the window scan: both hashes
present and within Hamming distance 5. -/
def hashWithin5 (cur c : MediaItem) : Bool :=
  match cur.hash, c.hash with
  | some h1, some h2 => decide (calculateHammingDistance h1 h2 ≤ 5)
  | _, _ => false

/-- Which item (if any) the window scan for seed `cur` picks up at index
`j`, as a function of the visited set at the start of the scan. -/
def windowPick (ps : List MediaItem) (cur : MediaItem) (visited : List String)
    (j : ℕ) : Option MediaItem :=
  match ps.get? j with
  | none => none
  | some c => if ¬ visited.contains c.id ∧ hashWithin5 cur c then some c else none

/-- Descending order on rationals, used to speak about the sorted list of a
group's quality totals. -/
def descQ (a b : ℚ) : Prop := b ≤ a

instance : DecidableRel descQ := fun a b =>
  inferInstanceAs (Decidable (b ≤ a))

instance : IsTotal ℚ descQ := ⟨fun a b => le_total b a⟩

instance : IsTrans ℚ descQ := ⟨fun _ _ _ hab hbc => le_trans hbc hab⟩

instance : IsAntisymm ℚ descQ := ⟨fun _ _ hab hba => le_antisymm hba hab⟩

instance : IsTotal MediaItem byQualityDesc :=
  ⟨fun a b => le_total (qualityTotalOrZero b) (qualityTotalOrZero a)⟩

instance : IsTrans MediaItem byQualityDesc :=
  ⟨fun _ _ _ hab hbc => le_trans hbc hab⟩

/-- Two duplicate groups have no record id in common. -/
def idDisjoint (g1 g2 : DuplicateGroup) : Prop :=
  ∀ x ∈ g1.items.map MediaItem.id, x ∉ g2.items.map MediaItem.id

/-- Concrete image item with a cached hash and quality, used as test input. -/
def sampleItem (k : ℕ) (h : List Char) (q : ℚ) : MediaItem :=
  ⟨toString k, .image, (k : ℤ), ⟨[], 0, none⟩, none, some h, some ⟨0, 0, 0, q, []⟩⟩

/-- A 6-character all-zero hash (hash length is irrelevant to clustering). -/
def hashZeros : List Char := List.replicate 6 '0'

/-- A 6-character all-one hash, at Hamming distance 6 from `hashZeros`. -/
def hashOnes : List Char := List.replicate 6 '1'

/-- Two items with identical hashes and quality totals 9 and 7. -/
def exPair : List MediaItem :=
  [sampleItem 0 hashZeros 9, sampleItem 1 hashZeros 7]

/-- The single group `detectDuplicates` emits on `exPair`. -/
def exPairGroup : DuplicateGroup :=
  ⟨"group-0", [sampleItem 0 hashZeros 9, sampleItem 1 hashZeros 7], "0", 2⟩

/-- Fifty-one items with distinct timestamps 0..50: items 0 and 50 share a
hash, items 1..49 share a different hash at distance 6 from it. -/
def ex51 : List MediaItem :=
  (List.range 51).map fun k =>
    sampleItem k (if k = 0 ∨ k = 50 then hashZeros else hashOnes) 0

/-- Image file whose decode succeeds (2000x2000) but whose pixel-buffer
read fails. -/
def exposureFallbackFile : ImageFile :=
  ⟨"a.jpg".toList, 0, some ⟨2000, 2000, none⟩⟩

/-- Image item with no cached hash or quality whose decode fails. -/
def undecodableItem : MediaItem :=
  ⟨"bad", .image, 0, ⟨"bad.jpg".toList, 0, none⟩, none, none, none⟩

/-! Theorems. -/

lemma size_lt_150KB_iff (s : ℚ) : s / 1024 < 150 ↔ s < 150 * 1024 :=
  div_lt_iff₀ (by norm_num)

/-- C1: `analyzeImage` applies the classification rules in fixed precedence
order, first match winning: a filename containing "screenshot" or
"screen_recording" (lowercased) gives Discard/98/"Filename indicates a
screenshot"; else byte size under 150 KB gives Discard/85/"Low resolution
(small file size)"; else, after a successful decode, aspect ratio below
0.48 or above 2.2 gives Discard/80/"Unusual aspect ratio"; else raw
sharpness below 2.5 gives Discard/75/"Image appears blurry"; else
Keep/65/"Standard image resolution". -/
theorem c1_analyzeImage_precedence_ladder (f : ImageFile) :
    (screenshotName f.name = true →
      analyzeImage f = ⟨.DISCARD, 98, "Filename indicates a screenshot", ["Screenshot"]⟩) ∧
    (screenshotName f.name = false → f.size < 150 * 1024 →
      analyzeImage f = ⟨.DISCARD, 85, "Low resolution (small file size)", ["Small"]⟩) ∧
    (∀ img, screenshotName f.name = false → ¬ f.size < 150 * 1024 →
      f.decoded = some img →
      ((img.width : ℚ) / img.height < 48/100 ∨ (img.width : ℚ) / img.height > 22/10) →
      analyzeImage f = ⟨.DISCARD, 80, "Unusual aspect ratio", ["Aspect"]⟩) ∧
    (∀ img, screenshotName f.name = false → ¬ f.size < 150 * 1024 →
      f.decoded = some img →
      ¬ ((img.width : ℚ) / img.height < 48/100 ∨ (img.width : ℚ) / img.height > 22/10) →
      calculateSharpness img.data < 5/2 →
      analyzeImage f = ⟨.DISCARD, 75, "Image appears blurry", ["Blurry"]⟩) ∧
    (∀ img, screenshotName f.name = false → ¬ f.size < 150 * 1024 →
      f.decoded = some img →
      ¬ ((img.width : ℚ) / img.height < 48/100 ∨ (img.width : ℚ) / img.height > 22/10) →
      ¬ calculateSharpness img.data < 5/2 →
      analyzeImage f = ⟨.KEEP, 65, "Standard image resolution", ["Image"]⟩) := by
  refine ⟨?_, ?_, ?_, ?_, ?_⟩
  · intro h
    unfold analyzeImage
    rw [if_pos h]
  · intro h hs
    unfold analyzeImage
    rw [if_neg (by simp [h]), if_pos ((size_lt_150KB_iff f.size).mpr hs)]
  · intro img h hs hdec hasp
    unfold analyzeImage
    rw [if_neg (by simp [h]), if_neg (by rw [size_lt_150KB_iff]; exact hs), hdec]
    dsimp only
    rw [if_pos hasp]
  · intro img h hs hdec hasp hsh
    unfold analyzeImage
    rw [if_neg (by simp [h]), if_neg (by rw [size_lt_150KB_iff]; exact hs), hdec]
    dsimp only
    rw [if_neg hasp, if_pos hsh]
  · intro img h hs hdec hasp hsh
    unfold analyzeImage
    rw [if_neg (by simp [h]), if_neg (by rw [size_lt_150KB_iff]; exact hs), hdec]
    dsimp only
    rw [if_neg hasp, if_neg hsh]

/-- Witness for C1 at the spec's own example input. -/
theorem c1_witness :
    analyzeImage ⟨"IMG_screenshot_01.png".toList, 500000, none⟩
      = ⟨.DISCARD, 98, "Filename indicates a screenshot", ["Screenshot"]⟩ :=
  (c1_analyzeImage_precedence_ladder _).1 (by decide)

/-- C3: if the visual phase is reached (neither metadata rule fired) and the
decode fails, `analyzeImage` returns exactly Unsure/0/"Analysis failed" with
tags ["Error"]. The embedding returns an `AnalysisResult` on every input
(no `Except`), which is how the source's never-rejecting promise is
modelled. -/
theorem c3_decode_failure_gives_unsure (f : ImageFile)
    (h1 : screenshotName f.name = false) (h2 : ¬ f.size < 150 * 1024)
    (h3 : f.decoded = none) :
    analyzeImage f = ⟨.UNSURE, 0, "Analysis failed", ["Error"]⟩ := by
  unfold analyzeImage
  rw [if_neg (by simp [h1]), if_neg (by rw [size_lt_150KB_iff]; exact h2), h3]

/-- Witness for C3: a 200 KB image whose decode fails. -/
theorem c3_witness :
    analyzeImage ⟨"photo.jpg".toList, 200000, none⟩
      = ⟨.UNSURE, 0, "Analysis failed", ["Error"]⟩ :=
  c3_decode_failure_gives_unsure _ (by decide) (by norm_num) rfl

/-- C8: videos are classified from the filename alone: a name containing
"screen" (lowercased) gives Discard/85/"Screen Recording Detected",
anything else Keep/85/"Video content". -/
theorem c8_video_classification (name : List Char) :
    (includesSub (name.map Char.toLower) "screen".toList = true →
      classifyVideoItem name = ⟨.DISCARD, 85, "Screen Recording Detected", ["Video"]⟩) ∧
    (includesSub (name.map Char.toLower) "screen".toList = false →
      classifyVideoItem name = ⟨.KEEP, 85, "Video content", ["Video"]⟩) := by
  constructor
  · intro h
    unfold classifyVideoItem
    rw [if_pos h]
  · intro h
    unfold classifyVideoItem
    rw [if_neg (by rw [h]; exact Bool.false_ne_true)]

/-- Witness for C8 at the spec's example "screen_capture.mov". -/
theorem c8_witness :
    classifyVideoItem "screen_capture.mov".toList
      = ⟨.DISCARD, 85, "Screen Recording Detected", ["Video"]⟩ :=
  (c8_video_classification _).1 (by decide)

lemma calculateHammingDistance_self (h : List Char) :
    calculateHammingDistance h h = 0 := by
  unfold calculateHammingDistance
  simp

/-- C9: on equal-length (64-bit) hashes, `calculateHammingDistance` is
symmetric and vanishes exactly on identical hashes; it vanishes on
`(h, h)` for every hash `h`. -/
theorem c9_hamming_symm_and_zero_iff (a b : List Char)
    (ha : a.length = 64) (hb : b.length = 64) :
    calculateHammingDistance a b = calculateHammingDistance b a ∧
    (calculateHammingDistance a b = 0 ↔ a = b) ∧
    ∀ h : List Char, calculateHammingDistance h h = 0 := by
  refine ⟨?_, ⟨?_, ?_⟩, fun h => calculateHammingDistance_self h⟩
  · unfold calculateHammingDistance
    rw [ha, hb]
    congr 1
    refine List.filter_congr fun i _ => ?_
    exact decide_eq_decide.mpr ne_comm
  · intro h0
    have hnil : ((List.range a.length).filter fun i =>
        decide (a.get? i ≠ b.get? i)) = [] := List.length_eq_zero.mp h0
    have hall := List.filter_eq_nil_iff.mp hnil
    refine List.ext_get? fun n => ?_
    rcases lt_or_ge n 64 with hn | hn
    · have hmem : n ∈ List.range a.length := List.mem_range.mpr (by omega)
      have := hall n hmem
      simpa using this
    · rw [List.get?_eq_none.mpr (by omega), List.get?_eq_none.mpr (by omega)]
  · rintro rfl
    exact calculateHammingDistance_self a

/-- Witness for C9 on two concrete 64-bit hashes. -/
theorem c9_witness :
    calculateHammingDistance (List.replicate 64 '0') (List.replicate 64 '1')
      = calculateHammingDistance (List.replicate 64 '1') (List.replicate 64 '0') ∧
    (calculateHammingDistance (List.replicate 64 '0') (List.replicate 64 '1') = 0 ↔
      List.replicate 64 '0' = List.replicate 64 '1') ∧
    ∀ h : List Char, calculateHammingDistance h h = 0 :=
  c9_hamming_symm_and_zero_iff _ _ (by simp) (by simp)

lemma mathMin_eq_min (a b : ℚ) : mathMin a b = min a b := by
  rw [mathMin, min_def]

lemma mathMax_eq_max (a b : ℚ) : mathMax a b = max a b := by
  rw [mathMax, max_def]

lemma calculateExposureScore_nonneg (d : Option (List ℚ)) (w h : ℕ) :
    0 ≤ calculateExposureScore d w h := by
  unfold calculateExposureScore
  cases d with
  | none => norm_num
  | some data =>
    dsimp only
    rw [mathMax_eq_max]
    exact le_max_left 0 _

lemma calculateExposureScore_le_one (d : Option (List ℚ)) (w h : ℕ) :
    calculateExposureScore d w h ≤ 1 := by
  unfold calculateExposureScore
  cases d with
  | none => norm_num
  | some data =>
    dsimp only
    rw [mathMax_eq_max]
    refine max_le (by norm_num) ?_
    have h0 : (0:ℚ) ≤ |128 - (((List.range data.length).filter fun i =>
        i % 4 == 0).map fun i =>
          data.getD i 0 * (299/1000) + data.getD (i+1) 0 * (587/1000)
            + data.getD (i+2) 0 * (114/1000)).sum / ((w * h : ℕ) : ℚ)| / 128 := by
      positivity
    linarith

lemma clamp01_of_nonpos (x : ℚ) (hx : x ≤ 0) : mathMin (mathMax x 0) 1 = 0 := by
  rw [mathMax, if_pos hx, mathMin, if_pos zero_le_one]

lemma clamp01_bounds (x : ℚ) :
    0 ≤ mathMin (mathMax x 0) 1 ∧ mathMin (mathMax x 0) 1 ≤ 1 := by
  rw [mathMin_eq_min, mathMax_eq_max]
  exact ⟨le_min (le_max_right x 0) zero_le_one, min_le_right _ 1⟩

/-- C4: every field of the `QualityScore` returned by
`calculateImageQuality` lies in the closed interval `[0, 1]` (on every
input, decodable or not). -/
theorem c4_quality_fields_in_unit_interval (f : ImageFile) :
    0 ≤ (calculateImageQuality f).sharpness ∧ (calculateImageQuality f).sharpness ≤ 1 ∧
    0 ≤ (calculateImageQuality f).exposure ∧ (calculateImageQuality f).exposure ≤ 1 ∧
    0 ≤ (calculateImageQuality f).resolution ∧ (calculateImageQuality f).resolution ≤ 1 ∧
    0 ≤ (calculateImageQuality f).total ∧ (calculateImageQuality f).total ≤ 1 := by
  cases hd : f.decoded with
  | none => simp [calculateImageQuality, hd]
  | some img =>
    unfold calculateImageQuality
    rw [hd]
    dsimp only
    obtain ⟨hs0, hs1⟩ := clamp01_bounds ((calculateSharpness img.data - 2) / 6)
    obtain ⟨hr0, hr1⟩ := clamp01_bounds
      ((((img.width * img.height : ℕ) : ℚ) / 1000000 - 2) / 10)
    have he0 := calculateExposureScore_nonneg img.data 320
      ⌊(img.height : ℚ) * ((320 : ℚ) / (img.width : ℚ))⌋₊
    have he1 := calculateExposureScore_le_one img.data 320
      ⌊(img.height : ℚ) * ((320 : ℚ) / (img.width : ℚ))⌋₊
    refine ⟨hs0, hs1, he0, he1, hr0, hr1, ?_, ?_⟩
    · have := mul_nonneg hs0 (by norm_num : (0:ℚ) ≤ 6/10)
      have := mul_nonneg he0 (by norm_num : (0:ℚ) ≤ 2/10)
      have := mul_nonneg hr0 (by norm_num : (0:ℚ) ≤ 2/10)
      linarith
    · have := mul_le_mul_of_nonneg_right hs1 (by norm_num : (0:ℚ) ≤ 6/10)
      have := mul_le_mul_of_nonneg_right he1 (by norm_num : (0:ℚ) ≤ 2/10)
      have := mul_le_mul_of_nonneg_right hr1 (by norm_num : (0:ℚ) ≤ 2/10)
      linarith

/-- C6 counterexample: on `exposureFallbackFile` the decode succeeds
(2000x2000) but the pixel-buffer read fails, a "buffer access" failure in
the claim's sense; `calculateImageQuality` then returns exposure 0.5,
total 7/50 and a nonempty tag list, not the all-zero empty-tag score the
claim requires. -/
theorem c6_counterexample :
    (calculateImageQuality exposureFallbackFile).exposure = 1/2 ∧
    (calculateImageQuality exposureFallbackFile).total = 7/50 ∧
    (calculateImageQuality exposureFallbackFile).details ≠ [] ∧
    calculateImageQuality exposureFallbackFile ≠ ⟨0, 0, 0, 0, []⟩ := by
  have h : calculateImageQuality exposureFallbackFile
      = ⟨0, 1/2, 1/5, 7/50, ["Blurry", toFixed1 4 ++ "MP"]⟩ := by
    unfold calculateImageQuality exposureFallbackFile
    norm_num [calculateSharpness, calculateExposureScore, mathMin, mathMax]
  refine ⟨by rw [h], by rw [h], by rw [h]; simp, by rw [h]; simp⟩

/-- C6 amended: a decode failure yields the all-zero score with empty tags;
a buffer-access failure after a successful decode instead yields raw
sharpness 0 (hence normalized sharpness 0), the 0.5 exposure fallback, and
resolution/total computed normally from the original dimensions. -/
theorem c6_quality_failure_modes (f : ImageFile) :
    (f.decoded = none → calculateImageQuality f = ⟨0, 0, 0, 0, []⟩) ∧
    (∀ img, f.decoded = some img → img.data = none →
      (calculateImageQuality f).sharpness = 0 ∧
      (calculateImageQuality f).exposure = 1/2 ∧
      (calculateImageQuality f).resolution
        = mathMin (mathMax ((((img.width * img.height : ℕ) : ℚ) / 1000000 - 2) / 10) 0) 1 ∧
      (calculateImageQuality f).total
        = 1/10
          + (mathMin (mathMax ((((img.width * img.height : ℕ) : ℚ) / 1000000 - 2) / 10) 0) 1)
            * (2/10)) := by
  constructor
  · intro hd
    unfold calculateImageQuality
    rw [hd]
  · intro img hd hdata
    unfold calculateImageQuality
    rw [hd]
    dsimp only
    rw [hdata]
    have hsharp : calculateSharpness (none : Option (List ℚ)) = 0 := rfl
    have hexp : calculateExposureScore (none : Option (List ℚ)) 320
        ⌊(img.height : ℚ) * (((320 : ℕ) : ℚ) / (img.width : ℚ))⌋₊ = 1/2 := rfl
    rw [hsharp, hexp]
    refine ⟨clamp01_of_nonpos _ (by norm_num), rfl, rfl, ?_⟩
    rw [clamp01_of_nonpos ((0 - 2) / 6 : ℚ) (by norm_num)]
    ring

/-- Witness for C6 amended: a decode failure and a buffer-access failure at
concrete inputs. -/
theorem c6_witness :
    calculateImageQuality ⟨"b.jpg".toList, 0, none⟩ = ⟨0, 0, 0, 0, []⟩ ∧
    (calculateImageQuality exposureFallbackFile).exposure = 1/2 :=
  ⟨(c6_quality_failure_modes _).1 rfl,
    ((c6_quality_failure_modes _).2 _ rfl rfl).2.1⟩

/-- C7 counterexample: a single image record with no cached hash or quality
whose decode fails makes `detectDuplicates` surface an error to its caller
(the promise rejects) instead of skipping the record. -/
theorem c7_counterexample :
    detectDuplicates [undecodableItem] = .error () := rfl

lemma processItems_ok (l : List MediaItem)
    (h : ∀ it ∈ l, it.type = .image →
      (it.hash.isSome ∧ it.quality.isSome) ∨ it.hashBuf.isSome) :
    ∃ ps, processItems l = .ok ps := by
  induction l with
  | nil => exact ⟨[], rfl⟩
  | cons item rest ih =>
    obtain ⟨ps, hps⟩ := ih fun it hit => h it (List.mem_cons_of_mem _ hit)
    have hhead := h item (List.mem_cons_self _ _)
    rw [processItems]
    cases htype : item.type with
    | video => exact ⟨ps, hps⟩
    | image =>
      by_cases hmiss : (item.hash.isNone || item.quality.isNone) = true
      · rcases hbuf : item.hashBuf with _ | buf
        · exfalso
          rcases hhead htype with ⟨hh, hq⟩ | hb
          · simp [Option.isNone_iff_eq_none, Option.isSome_iff_ne_none] at hmiss hh hq
            tauto
          · rw [hbuf] at hb
            simp at hb
        · rw [if_pos hmiss]
          dsimp only
          rw [hps]
          exact ⟨_, rfl⟩
      · rw [if_neg hmiss]
        dsimp only
        rw [hps]
        exact ⟨_, rfl⟩

/-- C7 amended: `detectDuplicates` surfaces no error when every image
record either carries a cached hash and quality or can be decoded; a record
missing hash/quality whose decode fails makes the scan reject (see the
counterexample), rather than being skipped. -/
theorem c7_no_error_when_decodable (items : List MediaItem)
    (h : ∀ it ∈ items, it.type = .image →
      (it.hash.isSome ∧ it.quality.isSome) ∨ it.hashBuf.isSome) :
    ∃ gs, detectDuplicates items = .ok gs := by
  obtain ⟨ps, hps⟩ := processItems_ok (List.insertionSort byTimestamp items)
    fun it hit => h it ((List.perm_insertionSort byTimestamp items).subset hit)
  exact ⟨_, by simp only [detectDuplicates]; rw [hps]; rfl⟩

/-- Witness for C7 amended: the concrete pair of cached-hash items scans
without error. -/
theorem c7_witness : detectDuplicates exPair ≠ .error () := by
  obtain ⟨gs, hgs⟩ := c7_no_error_when_decodable exPair (by decide)
  simp [hgs]

lemma scanWindow_spec (ps : List MediaItem) (cur : MediaItem) :
    ∀ (js : List ℕ) (grp : List MediaItem) (visited : List String),
      ∃ added : List MediaItem,
        scanWindow ps cur js grp visited
          = (grp ++ added, (added.map MediaItem.id).reverse ++ visited) ∧
        (added.map MediaItem.id).Nodup ∧
        ∀ d ∈ added, d.id ∉ visited := by
  intro js
  induction js with
  | nil =>
    intro grp visited
    exact ⟨[], by simp [scanWindow], by simp, by simp⟩
  | cons j rest ih =>
    intro grp visited
    rw [scanWindow]
    cases hj : ps.get? j with
    | none => exact ih grp visited
    | some candidate =>
      dsimp only
      by_cases hv : visited.contains candidate.id
      · rw [if_pos hv]
        exact ih grp visited
      · rw [if_neg hv]
        have hv' : candidate.id ∉ visited := by simpa using hv
        cases hh1 : cur.hash with
        | none => exact ih grp visited
        | some h1 =>
          cases hh2 : candidate.hash with
          | none => exact ih grp visited
          | some h2 =>
            dsimp only
            by_cases hd : calculateHammingDistance h1 h2 ≤ 5
            · rw [if_pos hd]
              obtain ⟨added, heq, hnd, hnotin⟩ :=
                ih (grp ++ [candidate]) (candidate.id :: visited)
              refine ⟨candidate :: added, ?_, ?_, ?_⟩
              · rw [heq]
                simp
              · simp only [List.map_cons, List.nodup_cons]
                refine ⟨fun hmem => ?_, hnd⟩
                obtain ⟨d, hdmem, hdid⟩ := List.mem_map.mp hmem
                exact hnotin d hdmem (by rw [hdid]; exact List.mem_cons_self _ _)
              · intro d hd'
                rcases List.mem_cons.mp hd' with rfl | hdmem
                · exact hv'
                · exact fun hmem => hnotin d hdmem (List.mem_cons_of_mem _ hmem)
            · rw [if_neg hd]
              exact ih grp visited

lemma emitted_group_good (cur : MediaItem) (grp : List MediaItem)
    (hlen : 1 < grp.length) :
    2 ≤ (List.insertionSort byQualityDesc grp).length ∧
    (∃ m ∈ List.insertionSort byQualityDesc grp,
      ((List.insertionSort byQualityDesc grp).getD 0 cur).id = m.id ∧
      ∀ m2 ∈ List.insertionSort byQualityDesc grp,
        qualityTotalOrZero m2 ≤ qualityTotalOrZero m) ∧
    qualityTotalOrZero ((List.insertionSort byQualityDesc grp).getD 0 cur)
        - qualityTotalOrZero ((List.insertionSort byQualityDesc grp).getD 1 cur)
      = (((List.insertionSort byQualityDesc grp).map qualityTotalOrZero).insertionSort
          descQ).getD 0 0
        - (((List.insertionSort byQualityDesc grp).map qualityTotalOrZero).insertionSort
            descQ).getD 1 0 ∧
    0 ≤ qualityTotalOrZero ((List.insertionSort byQualityDesc grp).getD 0 cur)
        - qualityTotalOrZero ((List.insertionSort byQualityDesc grp).getD 1 cur) := by
  have hperm := List.perm_insertionSort byQualityDesc grp
  have hsorted := List.sorted_insertionSort byQualityDesc grp
  have hlen2 : 2 ≤ (List.insertionSort byQualityDesc grp).length := by
    rw [hperm.length_eq]; omega
  rcases hsml : List.insertionSort byQualityDesc grp with _ | ⟨m0, _ | ⟨m1, srest⟩⟩
  · rw [hsml] at hlen2; simp at hlen2
  · rw [hsml] at hlen2; simp at hlen2
  · rw [hsml] at hsorted
    have hall0 := (List.sorted_cons.mp hsorted).1
    have hsorted1 := (List.sorted_cons.mp hsorted).2
    have hmapsorted : List.Sorted descQ ((m0 :: m1 :: srest).map qualityTotalOrZero) :=
      List.Pairwise.map qualityTotalOrZero (fun _ _ h => h) hsorted
    have hmapeq : ((m0 :: m1 :: srest).map qualityTotalOrZero).insertionSort descQ
        = (m0 :: m1 :: srest).map qualityTotalOrZero :=
      List.eq_of_perm_of_sorted (List.perm_insertionSort _ _)
        (List.sorted_insertionSort _ _) hmapsorted
    refine ⟨by simp, ⟨m0, List.mem_cons_self _ _, rfl, ?_⟩, ?_, ?_⟩
    · intro m2 hm2
      rcases List.mem_cons.mp hm2 with rfl | hm2'
      · exact le_refl _
      · exact hall0 m2 hm2'
    · rw [hmapeq]
      rfl
    · have := hall0 m1 (List.mem_cons_self _ _)
      simpa using this

/-- Property of every emitted duplicate group claimed by C2. -/
def c2Good (g : DuplicateGroup) : Prop :=
  2 ≤ g.items.length ∧
  (∃ m ∈ g.items, g.bestItemId = m.id ∧
    ∀ m2 ∈ g.items, qualityTotalOrZero m2 ≤ qualityTotalOrZero m) ∧
  g.scoreGap = ((g.items.map qualityTotalOrZero).insertionSort descQ).getD 0 0
      - ((g.items.map qualityTotalOrZero).insertionSort descQ).getD 1 0 ∧
  0 ≤ g.scoreGap

lemma groupLoop_c2 (ps : List MediaItem) (idxs : List ℕ) :
    ∀ (visited : List String) (groups : List DuplicateGroup),
      (∀ g ∈ groups, c2Good g) →
      ∀ g ∈ groupLoop ps idxs visited groups, c2Good g := by
  induction idxs with
  | nil => intro visited groups hbase g hg; exact hbase g hg
  | cons i rest ih =>
    intro visited groups hbase g hg
    rw [groupLoop] at hg
    cases hget : ps.get? i with
    | none =>
      rw [hget] at hg
      exact ih visited groups hbase g hg
    | some current =>
      rw [hget] at hg
      dsimp only at hg
      by_cases hv : visited.contains current.id
      · rw [if_pos hv] at hg
        exact ih visited groups hbase g hg
      · rw [if_neg hv] at hg
        by_cases hlen : (scanWindow ps current (windowIdxs ps.length i)
            [current] (current.id :: visited)).1.length > 1
        · rw [if_pos hlen] at hg
          refine ih _ _ (fun g' hg' => ?_) g hg
          rcases List.mem_append.mp hg' with hold | hnew
          · exact hbase g' hold
          · rw [List.mem_singleton.mp hnew]
            exact emitted_group_good current _ hlen
        · rw [if_neg hlen] at hg
          exact ih _ _ hbase g hg

lemma detectDuplicates_ok_elim (items : List MediaItem) (gs : List DuplicateGroup)
    (hok : detectDuplicates items = .ok gs) :
    ∃ ps, gs = groupLoop ps (List.range ps.length) [] [] := by
  simp only [detectDuplicates] at hok
  cases hp : processItems (List.insertionSort byTimestamp items) with
  | error e => rw [hp] at hok; simp [Except.map] at hok
  | ok ps =>
    rw [hp] at hok
    simp only [Except.map] at hok
    exact ⟨ps, (Except.ok.injEq _ _).mp hok.symm⟩

/-- C2: every group emitted by `detectDuplicates` has at least two members,
its `bestItemId` is the id of a member of maximal quality total, and its
`scoreGap` is the highest total minus the second-highest total of its
members, hence nonnegative. -/
theorem c2_duplicate_group_invariants (items : List MediaItem)
    (gs : List DuplicateGroup) (hok : detectDuplicates items = .ok gs)
    (g : DuplicateGroup) (hg : g ∈ gs) :
    2 ≤ g.items.length ∧
    (∃ m ∈ g.items, g.bestItemId = m.id ∧
      ∀ m2 ∈ g.items, qualityTotalOrZero m2 ≤ qualityTotalOrZero m) ∧
    g.scoreGap = ((g.items.map qualityTotalOrZero).insertionSort descQ).getD 0 0
        - ((g.items.map qualityTotalOrZero).insertionSort descQ).getD 1 0 ∧
    0 ≤ g.scoreGap := by
  obtain ⟨ps, rfl⟩ := detectDuplicates_ok_elim items gs hok
  exact groupLoop_c2 ps _ [] [] (by simp) g hg

/-- Witness for C2 on the concrete pair `exPair`. -/
theorem c2_witness :
    2 ≤ exPairGroup.items.length ∧
    (∃ m ∈ exPairGroup.items, exPairGroup.bestItemId = m.id ∧
      ∀ m2 ∈ exPairGroup.items, qualityTotalOrZero m2 ≤ qualityTotalOrZero m) ∧
    exPairGroup.scoreGap
        = ((exPairGroup.items.map qualityTotalOrZero).insertionSort descQ).getD 0 0
          - ((exPairGroup.items.map qualityTotalOrZero).insertionSort descQ).getD 1 0 ∧
    0 ≤ exPairGroup.scoreGap :=
  c2_duplicate_group_invariants exPair [exPairGroup] (by decide) exPairGroup
    (List.mem_singleton.mpr rfl)

lemma groupLoop_disjoint (ps : List MediaItem) (idxs : List ℕ) :
    ∀ (visited : List String) (groups : List DuplicateGroup),
      (∀ g ∈ groups, (g.items.map MediaItem.id).Nodup) →
      (∀ g ∈ groups, ∀ x ∈ g.items.map MediaItem.id, x ∈ visited) →
      List.Pairwise idDisjoint groups →
      (∀ g ∈ groupLoop ps idxs visited groups, (g.items.map MediaItem.id).Nodup) ∧
      List.Pairwise idDisjoint (groupLoop ps idxs visited groups) := by
  induction idxs with
  | nil => intro visited groups h1 h2 h3; exact ⟨h1, h3⟩
  | cons i rest ih =>
    intro visited groups h1 h2 h3
    rw [groupLoop]
    cases hget : ps.get? i with
    | none => exact ih visited groups h1 h2 h3
    | some current =>
      dsimp only
      by_cases hv : visited.contains current.id
      · rw [if_pos hv]
        exact ih visited groups h1 h2 h3
      · rw [if_neg hv]
        have hv' : current.id ∉ visited := by simpa using hv
        obtain ⟨added, heq, hnd, hnotin⟩ :=
          scanWindow_spec ps current (windowIdxs ps.length i) [current]
            (current.id :: visited)
        rw [heq]
        dsimp only
        have hgrpids : (([current] ++ added).map MediaItem.id).Nodup := by
          simp only [List.singleton_append, List.map_cons, List.nodup_cons]
          refine ⟨fun hmem => ?_, hnd⟩
          obtain ⟨d, hdmem, hdid⟩ := List.mem_map.mp hmem
          exact hnotin d hdmem (by rw [hdid]; exact List.mem_cons_self _ _)
        have hperm : (List.insertionSort byQualityDesc ([current] ++ added)).Perm
            ([current] ++ added) := List.perm_insertionSort _ _
        have hnewids : ∀ x, x ∈ (List.insertionSort byQualityDesc
            ([current] ++ added)).map MediaItem.id →
            x = current.id ∨ ∃ d ∈ added, x = d.id := by
          intro x hx
          have hx' : x ∈ ([current] ++ added).map MediaItem.id :=
            ((hperm.map MediaItem.id).mem_iff).mp hx
          simp only [List.singleton_append, List.map_cons, List.mem_cons,
            List.mem_map] at hx'
          rcases hx' with hx0 | ⟨d, hdmem, hdid⟩
          · exact Or.inl hx0
          · exact Or.inr ⟨d, hdmem, hdid.symm⟩
        by_cases hlen : ([current] ++ added).length > 1
        · rw [if_pos hlen]
          apply ih
          · intro g hg
            rcases List.mem_append.mp hg with hold | hnew
            · exact h1 g hold
            · rw [List.mem_singleton.mp hnew]
              exact ((hperm.map MediaItem.id).nodup_iff).mpr hgrpids
          · intro g hg x hx
            rcases List.mem_append.mp hg with hold | hnew
            · exact List.mem_append_right _
                (List.mem_cons_of_mem _ (h2 g hold x hx))
            · rw [List.mem_singleton.mp hnew] at hx
              rcases hnewids x hx with rfl | ⟨d, hdmem, rfl⟩
              · exact List.mem_append_right _ (List.mem_cons_self _ _)
              · refine List.mem_append_left _ ?_
                rw [List.mem_reverse]
                exact List.mem_map_of_mem _ hdmem
          · rw [List.pairwise_append]
            refine ⟨h3, List.pairwise_singleton _ _, ?_⟩
            intro g hold g' hnew'
            rw [List.mem_singleton.mp hnew']
            intro x hxg hxnew
            have hxv := h2 g hold x hxg
            rcases hnewids x hxnew with rfl | ⟨d, hdmem, rfl⟩
            · exact hv' hxv
            · exact hnotin d hdmem (List.mem_cons_of_mem _ hxv)
        · rw [if_neg hlen]
          refine ih _ groups h1 (fun g hg x hx => ?_) h3
          exact List.mem_append_right _ (List.mem_cons_of_mem _ (h2 g hg x hx))

/-- C10: the groups emitted by `detectDuplicates` are pairwise disjoint on
record ids, and no id repeats inside a single group's member list. -/
theorem c10_groups_id_disjoint (items : List MediaItem)
    (gs : List DuplicateGroup) (hok : detectDuplicates items = .ok gs) :
    (∀ g ∈ gs, (g.items.map MediaItem.id).Nodup) ∧
    List.Pairwise idDisjoint gs := by
  obtain ⟨ps, rfl⟩ := detectDuplicates_ok_elim items gs hok
  exact groupLoop_disjoint ps _ [] [] (by simp) (by simp) (by simp)

/-- Witness for C10 on the concrete pair `exPair`. -/
theorem c10_witness :
    (∀ g ∈ [exPairGroup], (g.items.map MediaItem.id).Nodup) ∧
    List.Pairwise idDisjoint [exPairGroup] :=
  c10_groups_id_disjoint exPair [exPairGroup] (by decide)

lemma filterMap_congr_mem {α β : Type} {f g : α → Option β} :
    ∀ {l : List α}, (∀ a ∈ l, f a = g a) → l.filterMap f = l.filterMap g := by
  intro l
  induction l with
  | nil => intro _; rfl
  | cons a l ih =>
    intro h
    rw [List.filterMap_cons, List.filterMap_cons, h a (List.mem_cons_self _ _),
      ih fun x hx => h x (List.mem_cons_of_mem _ hx)]

lemma ids_ne_of_get?_ne (ps : List MediaItem)
    (hids : (ps.map MediaItem.id).Nodup) {j j' : ℕ} (hne : j ≠ j')
    (hj : j < ps.length) {c c' : MediaItem}
    (hc : ps.get? j = some c) (hc' : ps.get? j' = some c') :
    c.id ≠ c'.id := by
  intro hid
  apply hne
  refine List.get?_inj ?_ hids ?_
  · simpa using hj
  · rw [List.get?_map, List.get?_map, hc, hc']
    simp [hid]

lemma scanWindow_filterMap (ps : List MediaItem) (cur : MediaItem)
    (hids : (ps.map MediaItem.id).Nodup) :
    ∀ (js : List ℕ) (grp : List MediaItem) (visited : List String),
      js.Nodup → (∀ j ∈ js, j < ps.length) →
      (scanWindow ps cur js grp visited).1
        = grp ++ js.filterMap (windowPick ps cur visited) := by
  intro js
  induction js with
  | nil => intro grp visited _ _; simp [scanWindow]
  | cons j rest ih =>
    intro grp visited hnd hlt
    have hjlen : j < ps.length := hlt j (List.mem_cons_self _ _)
    have hrestnd : rest.Nodup := (List.nodup_cons.mp hnd).2
    have hjnotin : j ∉ rest := (List.nodup_cons.mp hnd).1
    have hrestlt : ∀ x ∈ rest, x < ps.length :=
      fun x hx => hlt x (List.mem_cons_of_mem _ hx)
    rcases hcx : ps.get? j with _ | c
    · rw [List.get?_eq_none] at hcx; omega
    have hcx2 : ps[j]? = some c := by rw [← List.get?_eq_getElem?]; exact hcx
    rw [scanWindow, hcx, List.filterMap_cons]
    dsimp only
    by_cases hv : visited.contains c.id
    · rw [if_pos hv]
      have hv2 : c.id ∈ visited := by simpa using hv
      have hpick : windowPick ps cur visited j = none := by
        simp [windowPick, hcx, hcx2, hv2]
      rw [hpick]
      exact ih grp visited hrestnd hrestlt
    · rw [if_neg hv]
      cases hh1 : cur.hash with
      | none =>
        have hpick : windowPick ps cur visited j = none := by
          simp [windowPick, hcx, hcx2, hashWithin5, hh1]
        rw [hpick]
        exact ih grp visited hrestnd hrestlt
      | some h1 =>
        cases hh2 : c.hash with
        | none =>
          have hpick : windowPick ps cur visited j = none := by
            simp [windowPick, hcx, hcx2, hashWithin5, hh1, hh2]
          rw [hpick]
          exact ih grp visited hrestnd hrestlt
        | some h2 =>
          dsimp only
          by_cases hd5 : calculateHammingDistance h1 h2 ≤ 5
          · rw [if_pos hd5]
            have hv2 : c.id ∉ visited := by simpa using hv
            have hpick : windowPick ps cur visited j = some c := by
              simp [windowPick, hcx, hcx2, hashWithin5, hh1, hh2, hd5, hv2]
            rw [hpick]
            rw [ih (grp ++ [c]) (c.id :: visited) hrestnd hrestlt]
            have hfm : rest.filterMap (windowPick ps cur (c.id :: visited))
                = rest.filterMap (windowPick ps cur visited) := by
              apply filterMap_congr_mem
              intro j' hj'
              rcases hcy : ps.get? j' with _ | c'
              · have hcy2 : ps[j']? = none := by
                  rw [← List.get?_eq_getElem?]; exact hcy
                simp [windowPick, hcy2]
              · have hcy2 : ps[j']? = some c' := by
                  rw [← List.get?_eq_getElem?]; exact hcy
                have hne : c'.id ≠ c.id :=
                  ids_ne_of_get?_ne ps hids
                    (fun hjj => hjnotin (by rw [← hjj]; exact hj'))
                    (hrestlt j' hj') hcy hcx
                simp [windowPick, hcy2, hne]
            rw [hfm]
            simp
          · rw [if_neg hd5]
            have hpick : windowPick ps cur visited j = none := by
              simp [windowPick, hcx, hcx2, hashWithin5, hh1, hh2, hd5]
            rw [hpick]
            exact ih grp visited hrestnd hrestlt

set_option maxRecDepth 10000 in
/-- C5 counterexample: in `ex51`, items 0 and 50 share a hash (distance 0)
and all other items are more than 5 bits from both; the sorted index of
item 50 is 50, inside the claim's "next 50" window of seed 0 but outside
the code's window (`j < min(len, i+50)` reaches only index 49). The code
emits one group (ids 1..49, mutually identical hashes); the spec-worded
next-50 variant would also have paired items 0 and 50. -/
theorem c5_counterexample :
    (detectDuplicates ex51).map (fun gs => gs.map fun g => g.items.map MediaItem.id)
      = .ok [(List.range 49).map fun k => toString (k + 1)] ∧
    (detectDuplicatesSpec50 ex51).map (fun gs => gs.map fun g => g.items.map MediaItem.id)
      = .ok [["0", "50"], (List.range 49).map fun k => toString (k + 1)] ∧
    calculateHammingDistance hashZeros hashZeros = 0 := by
  refine ⟨by decide, by decide, by decide⟩

/-- C5 amended: the scanned window for the seed at index `i` is exactly the
next 49 indices `i+1 .. i+49` truncated at the end of the list, and (for
distinct record ids) the scan adds to the seed's group exactly the window
candidates that were unvisited at the start of the scan, carry a hash, and
are within Hamming distance 5 of the seed's hash. -/
theorem c5_window_is_next_49 (len i : ℕ) (ps : List MediaItem)
    (cur : MediaItem) (grp : List MediaItem) (visited : List String) (j : ℕ)
    (hids : (ps.map MediaItem.id).Nodup) :
    (j ∈ windowIdxs len i ↔ i < j ∧ j ≤ i + 49 ∧ j < len) ∧
    (scanWindow ps cur (windowIdxs ps.length i) grp visited).1
      = grp ++ (windowIdxs ps.length i).filterMap (windowPick ps cur visited) := by
  constructor
  · rw [windowIdxs, List.mem_range'_1, natMin]
    split <;> omega
  · apply scanWindow_filterMap ps cur hids
    · rw [windowIdxs]
      exact List.nodup_range' _ _
    · intro x hx
      rw [windowIdxs, List.mem_range'_1, natMin] at hx
      rcases hx with ⟨h1x, h2x⟩
      by_cases hc : ps.length ≤ i + 50
      · rw [if_pos hc] at h2x; omega
      · rw [if_neg hc] at h2x; omega

/-- Witness for C5 amended, at the seed of `exPair` and index 50 of a
51-element list. -/
theorem c5_witness :
    ((50 : ℕ) ∈ windowIdxs 51 0 ↔ 0 < 50 ∧ 50 ≤ 0 + 49 ∧ 50 < 51) ∧
    (scanWindow exPair (sampleItem 0 hashZeros 9) (windowIdxs exPair.length 0) [] []).1
      = [] ++ (windowIdxs exPair.length 0).filterMap
          (windowPick exPair (sampleItem 0 hashZeros 9) []) :=
  c5_window_is_next_49 51 0 exPair (sampleItem 0 hashZeros 9) [] [] 50 (by decide)

end PhotoFilter
